import Mathlib

/-!
Shallow embedding of the `teachable-machine.js` media classification pipeline
(`src/index.js`, `src/preprocess.js`, `src/utils/ffmpeg.js`) in Lean 4,
together with theorems settling the specification claims.

JavaScript numbers are modelled as exact rationals (`ℚ`); where a claim speaks
of values "within floating-point tolerance" the rational computation is the
intended exact value.  External effects (network, file system, the TensorFlow
engine, the FFmpeg processes) are supplied as explicit oracle records so that
each entry point becomes a total Lean function of its configuration and its
oracle environment.
-/

namespace TMJS

/-! ## JavaScript numbers for routing decisions

`Number.isFinite(x)` and `x > 0` are the only operations the routing logic in
`classify` applies to the `frames` option, so a JS number is modelled as a
finite rational or one of the non-finite values. -/

inductive JSNum where
  | fin (q : ℚ)
  | nan
  | posInf
  | negInf
deriving DecidableEq

/-- `Number.isFinite(x)`. -/
def JSNum.isFinite : JSNum → Bool
  | .fin _ => true
  | _ => false

/-- The JS comparison `x > 0` (`NaN > 0` is `false`, `Infinity > 0` is `true`). -/
def JSNum.gtZero : JSNum → Bool
  | .fin q => decide (0 < q)
  | .posInf => true
  | _ => false

/-! ## Unified `classify` entry-point routing (src/index.js lines 234-258) -/

inductive MediaType where
  | auto
  | image
  | video
deriving DecidableEq

/-- The shape of the `input` option: the `{images, videos}` object form (with
flags recording which of the two keys is present and non-empty), a scalar
input, or an array input. -/
inductive InputForm where
  | objectForm (hasImages hasVideos : Bool)
  | scalar
  | array
deriving DecidableEq

inductive Route where
  | mixed
  | video
  | image
deriving DecidableEq

/-- The guard `input && typeof input === 'object' && !Array.isArray(input) &&
(input.images || input.videos)` from `classify`. -/
def InputForm.isMixedObject : InputForm → Bool
  | .objectForm hasImages hasVideos => hasImages || hasVideos
  | _ => false

/-- Routing performed by `classify` (src/index.js lines 236-257):
the mixed object form is handled first; otherwise
`isVideo = mediaType === 'video' || (Number.isFinite(frames) && frames > 0 && mediaType !== 'image')`. -/
def classifyRoute (input : InputForm) (mediaType : MediaType) (frames : JSNum) : Route :=
  if input.isMixedObject then .mixed
  else if mediaType = .video ∨ (frames.isFinite ∧ frames.gtZero ∧ mediaType ≠ .image)
  then .video
  else .image

/-! ## Frame sampler (src/utils/ffmpeg.js `sampleTimestamps`, `safeTimestamps`) -/

/-- `sampleTimestamps(durationSec, count)`: guard
`!durationSec || durationSec <= 0 || !count || count <= 0` returns `[]`
(the falsy-zero cases are subsumed by `≤ 0` over `ℚ`/`ℤ`); otherwise
`t_k = ((k + 0.5) / count) * durationSec` for `k = 0 .. count-1`. -/
def sampleTimestamps (durationSec : ℚ) (count : ℤ) : List ℚ :=
  if durationSec ≤ 0 ∨ count ≤ 0 then []
  else (List.range count.toNat).map fun (k : ℕ) =>
    (((k : ℚ) + 1/2) / (count : ℚ)) * durationSec

/-- `safeTimestamps(durationSec, timestamps, marginSec)`:
`maxT = Math.max(0, durationSec - Math.max(0, marginSec))`, each timestamp
clamped to `[0, maxT]`.  The call site passes the default `marginSec = 0.05`. -/
def safeTimestamps (durationSec : ℚ) (timestamps : List ℚ) (marginSec : ℚ) : List ℚ :=
  let maxT := max 0 (durationSec - max 0 marginSec)
  timestamps.map fun t => min (max 0 t) maxT

/-! ## Media-acquisition cleanup (src/utils/ffmpeg.js `ensureLocalPathWithCleanup`)

The cleanup action returned with every ResolvedMedia is
`async () => { if (dir) await fs.rm(dir, { recursive: true, force: true }) }`
where `dir` is the temp directory created for this resolution (or absent for
the plain local-path case, whose cleanup is `async () => {}`).  The file
system is modelled as the list of existing temp directories; per Node
semantics `fs.rm` with `force: true` ignores a missing path, while removal of
an existing directory may still fail (modelled by the `rmFails` oracle). -/

abbrev FsState := List String

/-- `fs.rm(dir, { recursive: true, force: true })`. -/
def rmForce (rmFails : String → Bool) (s : FsState) (dir : String) : Except String FsState :=
  if dir ∈ s then
    if rmFails dir then .error "rm failed" else .ok (s.filter (· ≠ dir))
  else .ok s

/-- The cleanup closure of a ResolvedMedia: `dir = none` models the
no-temp-dir case (`cleanup: async () => {}`). -/
def cleanupRun (rmFails : String → Bool) (dir : Option String) (s : FsState) :
    Except String FsState :=
  match dir with
  | none => .ok s
  | some d => rmForce rmFails s d

/-! ## Bounded worker pool

The pool pattern appears four times:
frame extraction (`extractFrames`), buffer extraction
(`extractFramesFromBuffer`) and turbo-mode preprocessing
(src/index.js lines 355-369) all write each completed job into a result slot
computed atomically at claim time (`const idx = jobs.length - queue.length;
const job = queue.shift(); ... results[idx] = await job()`), while the
video-batch pool (src/index.js lines 282-294) appends on completion
(`out.push(await job())`).  Each site sizes its runner array as
`new Array(Math.max(1, Math.min(concurrency, queue.length)))`.

The execution is modelled as a small-step machine: a `claim` step is the
atomic index-computation-plus-shift a free runner performs (atomic because no
`await` separates them in the single-threaded JS event loop), and a
`finish j` step is the completion of the claimed job `j`, which may happen in
any order relative to other claimed jobs. -/

/-- `Math.max(1, Math.min(concurrency, queue.length))`. -/
def effectiveRunners (concurrency n : ℕ) : ℕ := max 1 (min concurrency n)

inductive PoolStep where
  | claim
  | finish (j : ℕ)

inductive PoolMode where
  | slots
  | push
deriving DecidableEq

structure PoolState (α : Type) where
  nextIdx : ℕ
  inflight : List ℕ
  slots : List (Option α)
  pushed : List α
deriving DecidableEq

def PoolState.init (α : Type) (n : ℕ) : PoolState α :=
  ⟨0, [], List.replicate n none, []⟩

def poolStep (mode : PoolMode) (outcome : ℕ → α) (runners n : ℕ)
    (s : PoolState α) : PoolStep → PoolState α
  | .claim =>
      if s.inflight.length < runners ∧ s.nextIdx < n then
        { s with nextIdx := s.nextIdx + 1, inflight := s.inflight ++ [s.nextIdx] }
      else s
  | .finish j =>
      if j ∈ s.inflight then
        match mode with
        | .slots => { s with inflight := s.inflight.erase j,
                             slots := s.slots.set j (some (outcome j)) }
        | .push => { s with inflight := s.inflight.erase j,
                            pushed := s.pushed ++ [outcome j] }
      else s

def poolExec (mode : PoolMode) (outcome : ℕ → α) (runners n : ℕ)
    (steps : List PoolStep) : PoolState α :=
  steps.foldl (poolStep mode outcome runners n) (PoolState.init α n)

/-! ## Score sorting and top-k

JS `array.sort(comparator)` is stable (ES2019), so
`scores.map((s, ci) => ci).sort((a, b) => scores[b] - scores[a])` is a stable
descending sort of the indices by score, ties kept in ascending index order.
It is modelled by a stable insertion sort: each index is inserted after every
already-placed index of greater-or-equal score. -/

def insertIdxDesc (scores : List ℚ) (i : ℕ) : List ℕ → List ℕ
  | [] => [i]
  | j :: rest =>
      if scores.getD j 0 < scores.getD i 0 then i :: j :: rest
      else j :: insertIdxDesc scores i rest

def sortIdxDesc (scores : List ℚ) : List ℕ :=
  (List.range scores.length).foldl (fun acc i => insertIdxDesc scores i acc) []

/-- `tf.topk(row, k)` on one score row: tfjs asserts `k` does not exceed the
last dimension and otherwise returns the `k` largest values with their
indices, ties broken towards the lower index.  Result pairs are
`(value, index)`. -/
def topkRow (row : List ℚ) (k : ℕ) : Except String (List (ℚ × ℕ)) :=
  if k ≤ row.length then
    .ok (((sortIdxDesc row).take k).map fun i => (row.getD i 0, i))
  else .error "topk: k exceeds dimension"

/-- `getTopKClasses(logits, classes, topK)` (src/index.js lines 10-16) for a
single logits row: `k = Math.min(topK ?? classes.length, classes.length)`,
then `tf.topk` and `classes[idx]` lookups (`none` models JS `undefined` for an
out-of-range label index). -/
def getTopKClasses (row : List ℚ) (classes : List String) (topK : Option ℕ) :
    Except String (List (Option String × ℚ)) := do
  let k := min (topK.getD classes.length) classes.length
  let pairs ← topkRow row k
  .ok (pairs.map fun p => (classes.get? p.2, p.1))

/-! ## Image batch classification (`classifyBatch`, src/index.js lines 135-217) -/

/-- One prediction entry `{ class, score, rank }`; `cls = none` models the JS
`undefined` produced by an out-of-range `classes[idx]` lookup. -/
structure Pred where
  cls : Option String
  score : ℚ
  rank : ℕ
deriving DecidableEq

/-- One slot of the batch `results` array: a success entry with predictions or
an error-tagged entry, both echoing their input. -/
inductive BEntry (α : Type) where
  | errorE (input : α) (msg : String)
  | okE (input : α) (preds : List Pred)
deriving DecidableEq

def BEntry.input : BEntry α → α
  | .errorE u _ => u
  | .okE u _ => u

/-- Oracles for the batch pipeline.  A buffer is identified with the input it
was downloaded from; `dl u = some msg` means `getImageBuffer(u)` threw with
message `msg`, `none` means it succeeded.  `infer` is
`model.predict` on the stacked tensors of the successful downloads: one score
row per tensor (the engine contract; the theorems take the row-count and
row-width contracts as hypotheses). -/
structure BatchEnv (α : Type) where
  dl : α → Option String
  infer : List α → List (List ℚ)

/-- `tf.stack(tensors)`: tfjs asserts the tensor list is non-empty. -/
def stackTensors (ts : List α) : Except String (List α) :=
  if ts.isEmpty then .error "Pass at least one tensor to tf.stack" else .ok ts

/-- `tf.topk(logits, k)` on a score matrix (every row of the stacked tensor
has the same width; ragged oracle rows are all checked). -/
def topkRows (rows : List (List ℚ)) (k : ℕ) : Except String (List (List (ℚ × ℕ))) :=
  if rows.all fun r => k ≤ r.length then
    .ok (rows.map fun r => ((sortIdxDesc r).take k).map fun i => (r.getD i 0, i))
  else .error "topk: k exceeds dimension"

/-- `processChunk(urls)` (src/index.js lines 146-204): download every URL with
a per-item catch, record the failures first (lines 159-167), then stack the
successful buffers, run one inference, take top-k, and append one success
entry per successful download in input order (lines 192-203).  `forEach` over
`okPairs` reads `inds[row]`; a missing row is the JS `TypeError` of mapping
over `undefined`. -/
def processChunk (env : BatchEnv α) (classes : List String) (topK : Option ℕ)
    (urls : List α) : Except String (List (BEntry α)) := do
  let dlResults := urls.map fun u => (u, env.dl u)
  let okPairs := dlResults.filter fun p => p.2.isNone
  let failPairs := dlResults.filter fun p => p.2.isSome
  let failEntries := failPairs.map fun p => BEntry.errorE p.1 (p.2.getD "")
  let buffers := okPairs.map Prod.fst
  let _ ← stackTensors buffers
  let rows := env.infer buffers
  let k := min (topK.getD classes.length) classes.length
  let top ← topkRows rows k
  if okPairs.length ≤ top.length then
    let okEntries := (okPairs.zip top).map fun p =>
      BEntry.okE p.1.1 (p.2.mapIdx fun j q => ⟨classes.get? q.2, q.1, j + 1⟩)
    pure (failEntries ++ okEntries)
  else
    throw "TypeError: cannot read predictions of an undefined row"

/-- The chunking loop `for (let i = 0; i < imageUrls.length; i += batchSize)`
(src/index.js lines 207-210), as successive `slice(i, i + batchSize)` pieces. -/
def chunksOf : ℕ → List α → List (List α)
  | _, [] => []
  | 0, l => [l]
  | b + 1, x :: xs => (x :: xs).take (b + 1) :: chunksOf (b + 1) ((x :: xs).drop (b + 1))
termination_by _ l => l.length
decreasing_by simp [List.length_drop]; omega

/-- The chunk list `classifyBatch` processes: chunking applies only when
`batchSize && batchSize > 0 && batchSize < imageUrls.length`. -/
def batchChunks (batchSize : Option ℕ) (imageUrls : List α) : List (List α) :=
  match batchSize with
  | some b => if 0 < b ∧ b < imageUrls.length then chunksOf b imageUrls else [imageUrls]
  | none => [imageUrls]

structure BatchOut (α : Type) where
  count : ℕ
  results : List (BEntry α)
deriving DecidableEq

/-- `classifyBatch({imageUrls, topK, batchSize})` (src/index.js lines
135-217): rejects an empty input array, then processes the chunks in order,
appending each chunk contribution to the shared `results` array; any
exception inside a chunk rejects the whole call. -/
def classifyBatchRun (env : BatchEnv α) (classes : List String) (topK : Option ℕ)
    (batchSize : Option ℕ) (imageUrls : List α) : Except String (BatchOut α) :=
  if imageUrls.isEmpty then .error "imageUrls must be a non-empty array"
  else
    match (batchChunks batchSize imageUrls).foldlM
        (fun acc c => (processChunk env classes topK c).map fun r => acc ++ r) [] with
    | .error e => .error e
    | .ok results => .ok ⟨imageUrls.length, results⟩

/-- `Except.isOk` projection used to state success/failure of a call. -/
def exceptIsOk : Except ε α → Bool
  | .ok _ => true
  | .error _ => false

/-! ## Single-video classification (`classifyVideo`, src/index.js lines 280-468)

The single-input path of `classifyVideo` is embedded with all external effects
supplied by a `VideoEnv` oracle.  Frame buffers are abstract identifiers
(`ℕ`); the per-frame engine row (`probs[0]` in the sequential path, one row of
the stacked batch in turbo mode) is given by `inferRow`. -/

inductive IoMode where
  | ram
  | disk
deriving DecidableEq

abbrev Frame := ℕ

structure VideoEnv where
  /-- `getMediaBuffer(videoUrl)` in ram mode: `.ok size` gives the buffer
  length in bytes. -/
  mediaBuf : Except String ℕ
  /-- `ensureLocalPathWithCleanup(videoUrl)` in disk mode (the path itself is
  abstracted away; its cleanup action is the resource the claims track). -/
  localPath : Except String Unit
  /-- `fs.stat(loc.path).catch(() => null)` in disk mode: the size, or `none`
  on stat failure. -/
  statSize : Option ℕ
  /-- `probeDurationSecFromBuffer`: parsed duration or `none`. -/
  probeRam : Option ℚ
  /-- `probeDurationSec`: parsed duration or `none`. -/
  probeDisk : Option ℚ
  /-- `extractFramesAutoFromBuffer` result (ram mode). -/
  framesRam : List Frame
  /-- `extractFrames` result (disk mode, primary attempt). -/
  framesDisk : List Frame
  /-- `ensureLocalPathWithCleanup(videoUrl)` inside the ram→disk fallback. -/
  fallbackLocal : Except String Unit
  /-- `extractFrames` result inside the fallback. -/
  framesFallback : List Frame
  /-- `fs.stat(loc.path).catch(() => null)` inside the fallback. -/
  statFallback : Option ℕ
  /-- The engine score row for one frame. -/
  inferRow : Frame → List ℚ
  /-- Whether the acquired cleanup action (its `fs.rm`) throws when invoked. -/
  cleanupFails : Bool

structure VideoCfg where
  ioMode : IoMode
  frames : JSNum
  topK : Option ℕ
  turbo : Bool
  /-- `maxBytes`; `0` models a falsy value, which skips the
  `if (maxBytes && sizeBytes > maxBytes)` check. -/
  maxBytes : ℕ
  classes : List String

/-- The `io` diagnostics object assembled at lines 409 / 458. -/
structure IoDiag where
  mode : IoMode
  fallbackToDisk : Bool
  tempCleaned : Bool
  sizeBytes : ℕ
  maxBytes : ℕ
deriving DecidableEq

structure FrameResult where
  frameIndex : ℕ
  timestampSec : Option ℚ
  predictions : List Pred
deriving DecidableEq

structure VideoOut where
  io : IoDiag
  results : List FrameResult
  aggregate : List Pred
deriving DecidableEq

/-- Result of the `try` body (lines 309-464), before the `finally` runs. -/
structure BodyRes where
  result : Except String VideoOut
  /-- whether the `cleanup` variable was reassigned to the acquired
  resource's cleanup action (line 318). -/
  acquired : Bool
  /-- invocations of the acquired cleanup so far (the success-path
  `await cleanup()` at lines 413 / 462 counts only when `acquired`). -/
  cleanupCalls : ℕ
  /-- invocations of the fallback resource's own cleanup (line 348). -/
  fallbackCleanupCalls : ℕ
  tempCleaned : Bool
  /-- a duration probe was performed. -/
  probed : Bool
  /-- frame extraction was performed. -/
  extracted : Bool

/-- The aggregation loop body
`for (let c = 0; c < probs[0].length; c++) aggregateScores[c] += probs[0][c]`:
faithful whenever the row is no wider than the accumulator (a wider row would
produce JS `NaN` entries, a case no claim exercises and the engine contract
excludes). -/
def aggAdd (agg row : List ℚ) : List ℚ :=
  (agg.zipWith (· + ·) row) ++ agg.drop row.length

/-- The per-frame scoring loop (sequential path lines 418-442; the turbo path
lines 355-392 computes the same per-frame results and aggregate from the
batched `probs` rows).  Returns the per-frame results, the aggregate score
sums and `frameCount`. -/
def scoreFrames (inferRow : Frame → List ℚ) (classes : List String)
    (topK : Option ℕ) (stamps : List ℚ) (frameBuffers : List Frame) :
    List FrameResult × List ℚ × ℕ :=
  let k := min (topK.getD classes.length) classes.length
  frameBuffers.enum.foldl
    (fun acc p =>
      let probs := inferRow p.2
      let idxs := (sortIdxDesc probs).take k
      let preds := idxs.mapIdx fun j ci => ⟨classes.get? ci, probs.getD ci 0, j + 1⟩
      (acc.1 ++ [⟨p.1, stamps.get? p.1, preds⟩], aggAdd acc.2.1 probs, acc.2.2 + 1))
    ([], List.replicate classes.length 0, 0)

/-- The aggregate ranking (lines 395-397 / 444-446):
`avg = aggregateScores.map(s => s / Math.max(1, frameCount))`, indices sorted
by descending average (stable), ranked, then `slice(0, k)`. -/
def aggregateRank (classes : List String) (topK : Option ℕ)
    (agg : List ℚ) (frameCount : ℕ) : List Pred :=
  let k := min (topK.getD classes.length) classes.length
  let avg := agg.map fun s => s / ((max 1 frameCount : ℕ) : ℚ)
  ((sortIdxDesc avg).mapIdx fun j ci => ⟨classes.get? ci, avg.getD ci 0, j + 1⟩).take k

/-- Scoring, envelope assembly and the success-path `await cleanup();
tempCleaned = true; return out` (lines 352-464).  In turbo mode an empty
frame list dies in `tf.stack` (line 373); the `io` snapshot captures the
`tempCleaned` value *before* the success-path cleanup runs, hence `false`. -/
def scoreAndAssemble (env : VideoEnv) (cfg : VideoCfg) (usedMode : IoMode)
    (fallbackToDisk : Bool) (acquired : Bool) (sizeBytes : ℕ) (stamps : List ℚ)
    (frameBuffers : List Frame) (fallbackCalls : ℕ) : BodyRes :=
  if cfg.turbo ∧ frameBuffers.isEmpty then
    ⟨.error "Pass at least one tensor to tf.stack", acquired, 0, fallbackCalls,
      false, true, true⟩
  else
    let scored := scoreFrames env.inferRow cfg.classes cfg.topK stamps frameBuffers
    let overall := aggregateRank cfg.classes cfg.topK scored.2.1 scored.2.2
    let out : VideoOut :=
      ⟨⟨usedMode, fallbackToDisk, false, sizeBytes, cfg.maxBytes⟩, scored.1, overall⟩
    if acquired ∧ env.cleanupFails then
      ⟨.error "rm failed", acquired, 1, fallbackCalls, false, true, true⟩
    else
      ⟨.ok out, acquired, if acquired then 1 else 0, fallbackCalls, true, true, true⟩

/-- From the duration check (line 328) through sampling, extraction and the
ram→disk fallback (lines 330-350), then scoring. -/
def afterAcquire (env : VideoEnv) (cfg : VideoCfg) (mode0 : IoMode)
    (acquired : Bool) (sizeBytes : ℕ) (probe : Option ℚ) : BodyRes :=
  match probe with
  | none => ⟨.error "Unable to determine video duration", acquired, 0, 0,
      false, true, false⟩
  | some durationSec =>
    if durationSec ≤ 0 then
      ⟨.error "Unable to determine video duration", acquired, 0, 0, false, true, false⟩
    else
      let framesInt : ℤ := match cfg.frames with
        | .fin q => ⌊q⌋
        | _ => 0
      let stampsRaw := sampleTimestamps durationSec framesInt
      let stamps := safeTimestamps durationSec stampsRaw (1/20)
      let frameBuffers := if mode0 = .ram then env.framesRam else env.framesDisk
      if mode0 = .ram ∧ frameBuffers.isEmpty then
        match env.fallbackLocal with
        | .error e => ⟨.error e, acquired, 0, 0, false, true, true⟩
        | .ok _ =>
          let sizeBytes2 := env.statFallback.getD sizeBytes
          scoreAndAssemble env cfg .disk true acquired sizeBytes2 stamps
            env.framesFallback 1
      else
        scoreAndAssemble env cfg mode0 false acquired sizeBytes stamps
          frameBuffers 0

/-- The `try` body (lines 309-464).  In ram mode the size ceiling is enforced
right after acquisition (line 313).  In disk mode the corresponding throw sits
inside `try { ... } catch {}` (lines 319-324), so the size-exceeded error is
computed and then swallowed: the body proceeds regardless. -/
def videoBody (env : VideoEnv) (cfg : VideoCfg) : BodyRes :=
  match cfg.ioMode with
  | .ram =>
    match env.mediaBuf with
    | .error e => ⟨.error e, false, 0, 0, false, false, false⟩
    | .ok sizeBytes =>
      if cfg.maxBytes ≠ 0 ∧ sizeBytes > cfg.maxBytes then
        ⟨.error "Media exceeds maxBytes", false, 0, 0, false, false, false⟩
      else
        afterAcquire env cfg .ram false sizeBytes env.probeRam
  | .disk =>
    match env.localPath with
    | .error e => ⟨.error e, false, 0, 0, false, false, false⟩
    | .ok _ =>
      let sizeBytes := env.statSize.getD 0
      -- `if (maxBytes && sizeBytes > maxBytes) throw ...` is swallowed by the
      -- enclosing bare `catch {}`; the computed condition has no effect.
      let _sizeExceededSwallowed := cfg.maxBytes ≠ 0 ∧ sizeBytes > cfg.maxBytes
      afterAcquire env cfg .disk true sizeBytes env.probeDisk

/-- The observable outcome of one `classifyVideo` single-input call. -/
structure VideoOutcome where
  result : Except String VideoOut
  /-- total invocations of the acquired resource's cleanup action. -/
  cleanupCalls : ℕ
  fallbackCleanupCalls : ℕ
  /-- final value of the `tempCleaned` flag. -/
  tempCleaned : Bool
  probed : Bool
  extracted : Bool

/-- `classifyVideo` on a single input (lines 296-468): the `frames` guard runs
before the `try`, and the `finally` (line 466) always invokes `cleanup` one
more time inside its own `try { ... } catch {}`, setting `tempCleaned` when
that invocation does not throw. -/
def classifyVideoRun (env : VideoEnv) (cfg : VideoCfg) : VideoOutcome :=
  if ¬(cfg.frames.isFinite ∧ cfg.frames.gtZero) then
    ⟨.error "frames must be a positive number", 0, 0, false, false, false⟩
  else
    let b := videoBody env cfg
    ⟨b.result,
      b.cleanupCalls + (if b.acquired then 1 else 0),
      b.fallbackCleanupCalls,
      b.tempCleaned || !(b.acquired && env.cleanupFails),
      b.probed, b.extracted⟩

/-- The value `processChunk` returns on its success path (all stack/top-k/row
checks passing); used to state lemmas about the batch pipeline. -/
def chunkEntries (env : BatchEnv α) (classes : List String) (topK : Option ℕ)
    (c : List α) : List (BEntry α) :=
  let dlResults := c.map fun u => (u, env.dl u)
  let okPairs := dlResults.filter fun p => p.2.isNone
  let failPairs := dlResults.filter fun p => p.2.isSome
  let rows := env.infer (okPairs.map Prod.fst)
  let k := min (topK.getD classes.length) classes.length
  let top := rows.map fun r => ((sortIdxDesc r).take k).map fun i => (r.getD i 0, i)
  failPairs.map (fun p => BEntry.errorE p.1 (p.2.getD "")) ++
    (okPairs.zip top).map fun p =>
      BEntry.okE p.1.1 (p.2.mapIdx fun j q => ⟨classes.get? q.2, q.1, j + 1⟩)

/-- Concrete batch oracle: input 1's download fails, every other input
downloads fine, and the engine returns the single score row `[1]` per tensor. -/
def c1Env : BatchEnv ℕ :=
  ⟨fun u => if u = 1 then some "nf" else none, fun bufs => bufs.map fun _ => [1]⟩

/-- Concrete batch oracle with no download failures. -/
def c1EnvOk : BatchEnv ℕ :=
  ⟨fun _ => none, fun bufs => bufs.map fun _ => [1]⟩

/-! Concrete video oracles and configurations used for the evaluations.
`VideoEnv` fields in order: mediaBuf, localPath, statSize, probeRam,
probeDisk, framesRam, framesDisk, fallbackLocal, framesFallback,
statFallback, inferRow, cleanupFails.  `VideoCfg` fields in order:
ioMode, frames, topK, turbo, maxBytes, classes. -/

/-- Disk-mode oracle: 4-byte media, duration 10, one frame scoring `[1, 0]`. -/
def vEnvC2 : VideoEnv :=
  ⟨.ok 4, .ok (), some 4, some 10, some 10, [0], [0], .ok (), [0], some 4,
    fun _ => [1, 0], false⟩

def vCfgC2 : VideoCfg := ⟨.disk, .fin 3, none, false, 10485760, ["a", "b"]⟩

/-- Oracle whose resolved media is 100 bytes in both modes. -/
def vEnvC3 : VideoEnv :=
  ⟨.ok 100, .ok (), some 100, some 10, some 10, [0], [0], .ok (), [0], some 100,
    fun _ => [1, 0], false⟩

def vCfgC3disk : VideoCfg := ⟨.disk, .fin 3, none, false, 5, ["a", "b"]⟩

def vCfgC3ram : VideoCfg := ⟨.ram, .fin 3, none, false, 5, ["a", "b"]⟩

/-- Ram-mode oracle whose in-memory extraction yields zero frames but whose
disk fallback yields one. -/
def vEnvC4 : VideoEnv :=
  ⟨.ok 4, .ok (), some 4, some 10, some 10, [], [0], .ok (), [7], some 4,
    fun _ => [1, 0], false⟩

def vCfgC4 : VideoCfg := ⟨.ram, .fin 3, none, false, 10485760, ["a", "b"]⟩

/-- Disk-mode oracle whose extraction yields zero frames. -/
def vEnvC7 : VideoEnv :=
  ⟨.ok 4, .ok (), some 4, some 10, some 10, [], [], .ok (), [], some 4,
    fun _ => [1, 0], false⟩

def vCfgC7 : VideoCfg := ⟨.disk, .fin 3, none, false, 10485760, ["a", "b"]⟩

/-! ## Helper lemmas -/

theorem insertIdxDesc_length (scores : List ℚ) (i : ℕ) (l : List ℕ) :
    (insertIdxDesc scores i l).length = l.length + 1 := by
  induction l with
  | nil => rfl
  | cons j rest ih =>
      unfold insertIdxDesc
      split
      · simp
      · simp [ih]

theorem sortIdxDesc_length (scores : List ℚ) :
    (sortIdxDesc scores).length = scores.length := by
  have aux : ∀ (l acc : List ℕ),
      (l.foldl (fun acc i => insertIdxDesc scores i acc) acc).length
        = acc.length + l.length := by
    intro l
    induction l with
    | nil => simp
    | cons x xs ih =>
        intro acc
        simp only [List.foldl_cons, ih, insertIdxDesc_length, List.length_cons]
        omega
  simpa [sortIdxDesc] using aux (List.range scores.length) []

/-! ## C10 — `classify` auto routing -/

/-- C10: with `mediaType` left at `'auto'` and a non-object input, `classify`
routes to video classification exactly when `frames` is a finite positive
number (which includes the default `frames = 10`); an explicit
`mediaType: 'image'` always reaches image classification. -/
theorem classify_auto_routing (input : InputForm) (frames : JSNum)
    (h : input.isMixedObject = false) :
    (classifyRoute input .auto frames = .video
      ↔ (frames.isFinite = true ∧ frames.gtZero = true)) ∧
    classifyRoute input .auto (.fin 10) = .video ∧
    classifyRoute input .image frames = .image := by
  refine ⟨?_, ?_, ?_⟩
  · unfold classifyRoute
    simp only [h]
    rcases hf : frames.isFinite <;> rcases hg : frames.gtZero <;>
      simp [hf, hg]
  · unfold classifyRoute
    simp [h, JSNum.isFinite, JSNum.gtZero]
  · unfold classifyRoute
    simp [h]

/-- Witness for `classify_auto_routing` at a concrete non-object input. -/
theorem classify_auto_routing_witness :
    (classifyRoute .scalar .auto .nan = .video
      ↔ (JSNum.isFinite .nan = true ∧ JSNum.gtZero .nan = true)) ∧
    classifyRoute .scalar .auto (.fin 10) = .video ∧
    classifyRoute .scalar .image .nan = .image :=
  classify_auto_routing .scalar .nan (by decide)

/-! ## C8 — frame sampler -/

/-- C8: for a positive duration and positive count, `sampleTimestamps` yields
exactly `count` timestamps with `t_k = ((k + 0.5) / count) * durationSec`;
`sample(10, 4) = [1.25, 3.75, 6.25, 8.75]`, and any non-positive duration or
count yields the empty sequence. -/
theorem sampleTimestamps_spec (d : ℚ) (count : ℤ) (hd : 0 < d) (hc : 0 < count) :
    (sampleTimestamps d count).length = count.toNat ∧
    (∀ k, k < count.toNat →
      (sampleTimestamps d count).getD k 0 = (((k : ℚ) + 1/2) / (count : ℚ)) * d) ∧
    sampleTimestamps 10 4 = [5/4, 15/4, 25/4, 35/4] ∧
    (∀ (d2 : ℚ) (c2 : ℤ), d2 ≤ 0 ∨ c2 ≤ 0 → sampleTimestamps d2 c2 = []) := by
  have hcond : ¬(d ≤ 0 ∨ count ≤ 0) := by
    push_neg
    exact ⟨hd, hc⟩
  have h4 : Int.toNat 4 = 4 := rfl
  refine ⟨?_, ?_, by norm_num [sampleTimestamps, h4, List.range_succ], ?_⟩
  · simp only [sampleTimestamps, if_neg hcond, List.length_map, List.length_range]
  · intro k hk
    simp only [sampleTimestamps, if_neg hcond]
    rw [List.getD_eq_getElem?_getD, List.getElem?_map, List.getElem?_range hk]
    rfl
  · intro d2 c2 h2
    simp [sampleTimestamps, h2]

/-- Witness for `sampleTimestamps_spec` at duration 10 and count 4. -/
theorem sampleTimestamps_spec_witness :
    (sampleTimestamps 10 4).length = (4 : ℤ).toNat ∧
    (∀ k, k < (4 : ℤ).toNat →
      (sampleTimestamps 10 4).getD k 0 = (((k : ℚ) + 1/2) / ((4 : ℤ) : ℚ)) * 10) ∧
    sampleTimestamps 10 4 = [5/4, 15/4, 25/4, 35/4] ∧
    (∀ (d2 : ℚ) (c2 : ℤ), d2 ≤ 0 ∨ c2 ≤ 0 → sampleTimestamps d2 c2 = []) :=
  sampleTimestamps_spec 10 4 (by norm_num) (by norm_num)

/-! ## C9 — cleanup idempotence -/

/-- C9: invoking the cleanup action of a ResolvedMedia a second time, after a
first invocation has completed, is a no-op that never throws: the completed
first call leaves the temp directory absent, and `fs.rm` with `force: true`
ignores a missing path. -/
theorem cleanupRun_idempotent (rmFails : String → Bool) (dir : Option String)
    (s s2 : FsState) (h : cleanupRun rmFails dir s = .ok s2) :
    cleanupRun rmFails dir s2 = .ok s2 := by
  match dir with
  | none =>
      simp only [cleanupRun] at h ⊢
  | some d =>
      simp only [cleanupRun, rmForce] at h ⊢
      by_cases hmem : d ∈ s
      · rw [if_pos hmem] at h
        by_cases hf : rmFails d
        · rw [if_pos hf] at h
          exact absurd h (by simp)
        · rw [if_neg hf] at h
          injection h with h2
          subst h2
          rw [if_neg (by simp [List.mem_filter])]
      · rw [if_neg hmem] at h
        injection h with h2
        subst h2
        rw [if_neg hmem]

/-- Witness for `cleanupRun_idempotent`: a temp dir removed by the first call. -/
theorem cleanupRun_idempotent_witness :
    cleanupRun (fun _ => false) (some "tmvid-a") [] = .ok [] :=
  cleanupRun_idempotent (fun _ => false) (some "tmvid-a") ["tmvid-a"] [] (by rfl)

/-! ## C5 — bounded worker pool -/

/-- Slot invariant: a filled result slot always holds its own job's outcome,
whatever interleaving of claims and completions occurred. -/
theorem poolExec_slots_inv (outcome : ℕ → α) (runners n : ℕ)
    (steps : List PoolStep) (j : ℕ) (v : α)
    (h : (poolExec .slots outcome runners n steps).slots.get? j = some (some v)) :
    v = outcome j := by
  suffices aux : ∀ (s : PoolState α),
      (∀ j2 v2, s.slots.get? j2 = some (some v2) → v2 = outcome j2) →
      ∀ j2 v2, ((steps.foldl (poolStep .slots outcome runners n) s).slots.get? j2
        = some (some v2)) → v2 = outcome j2 by
    refine aux (PoolState.init α n) ?_ j v h
    intro j2 v2 h2
    rw [PoolState.init] at h2
    rcases lt_or_ge j2 n with hlt | hge
    · rw [List.get?_eq_getElem?, List.getElem?_replicate, if_pos hlt] at h2
      exact absurd h2 (by simp)
    · rw [List.get?_eq_getElem?, List.getElem?_replicate,
        if_neg (by omega)] at h2
      exact absurd h2 (by simp)
  clear h
  induction steps with
  | nil => exact fun s hs => hs
  | cons st rest ih =>
      intro s hs
      rw [List.foldl_cons]
      refine ih (poolStep .slots outcome runners n s st) ?_
      intro j3 v3 h3
      match st with
      | .claim =>
          rw [poolStep] at h3
          split at h3
          · exact hs j3 v3 h3
          · exact hs j3 v3 h3
      | .finish jf =>
          rw [poolStep] at h3
          split at h3
          · simp only at h3
            rw [List.get?_set] at h3
            by_cases hjj : jf = j3
            · subst hjj
              rw [if_pos rfl] at h3
              rcases hmem : (s.slots.get? jf) with _ | w
              · rw [hmem] at h3
                exact absurd h3 (by simp)
              · rw [hmem] at h3
                simp only [Option.map_some] at h3
                injection h3 with h4
                injection h4 with h5
                exact h5.symm
            · rw [if_neg hjj] at h3
              exact hs j3 v3 h3
          · exact hs j3 v3 h3

/-- C5 (amended): at every pool use site the runner count is
`Math.max(1, Math.min(concurrency, jobs.length))`, hence clamped to
`[1, jobs.length]` for a non-empty job list; the slot-writing pools
(frame extraction, buffer extraction, turbo preprocessing) are index-aligned
to submission order regardless of completion order.  (The video-batch pool is
not: see the counterexample.) -/
theorem pool_clamped_and_slots_aligned (c n : ℕ) (hn : 1 ≤ n)
    (outcome : ℕ → α) (steps : List PoolStep) (j : ℕ) (v : α)
    (h : (poolExec .slots outcome (effectiveRunners c n) n steps).slots.get? j
      = some (some v)) :
    (1 ≤ effectiveRunners c n ∧ effectiveRunners c n ≤ n) ∧ v = outcome j := by
  refine ⟨⟨le_max_left 1 _, ?_⟩, poolExec_slots_inv outcome _ n steps j v h⟩
  rw [effectiveRunners]
  omega

/-- Witness for `pool_clamped_and_slots_aligned`: two jobs claimed FIFO and
finished out of order still land in their own slots. -/
theorem pool_clamped_and_slots_aligned_witness :
    (1 ≤ effectiveRunners 2 2 ∧ effectiveRunners 2 2 ≤ 2) ∧ 10 = 10 + 0 :=
  pool_clamped_and_slots_aligned 2 2 (by decide) (fun i => 10 + i)
    [.claim, .claim, .finish 1, .finish 0] 0 10 (by rfl)

/-- C5 counterexample: the video-batch pool (src/index.js lines 282-294)
collects with `out.push(await job())`, so with `maxConcurrent = 2` and job 1
completing before job 0 the result array is in completion order `[1, 0]`, not
submission order `[0, 1]`. -/
theorem poolExec_push_completion_order :
    (poolExec .push (fun i => i) (effectiveRunners 2 2) 2
      [.claim, .claim, .finish 1, .finish 0]).pushed = [1, 0] ∧
    ([1, 0] : List ℕ) ≠ [0, 1] :=
  ⟨by rfl, by decide⟩

/-! ## C6 — class-count mismatch -/

/-- C6 counterexample: the label list has 5 entries, the engine row has
width 4 and `topK = 3`, yet `getTopKClasses` succeeds with 3 predictions —
the mismatch is silently accepted, no `ModelMismatch` error exists in the
code. -/
theorem getTopKClasses_mismatch_silent :
    getTopKClasses [1/10, 2/5, 3/10, 1/5] ["a", "b", "c", "d", "e"] (some 3)
      = .ok [(some "b", 2/5), (some "c", 3/10), (some "d", 1/5)] ∧
    ([1/10, 2/5, 3/10, 1/5] : List ℚ).length ≠ ["a", "b", "c", "d", "e"].length := by
  refine ⟨?_, by decide⟩
  norm_num [getTopKClasses, topkRow, sortIdxDesc, insertIdxDesc, List.range_succ,
    Except.bind, Bind.bind]

/-- C6 (amended): the code performs no label-count/output-width comparison.
With `k = Math.min(topK ?? classes.length, classes.length)`, the call fails —
with a generic top-k bounds error, not a `ModelMismatch` — exactly when `k`
exceeds the engine row width, and otherwise succeeds with `k` predictions
even when the width differs from the label count. -/
theorem getTopKClasses_amended (row : List ℚ) (classes : List String)
    (topK : Option ℕ)
    (hk : min (topK.getD classes.length) classes.length ≤ row.length) :
    (getTopKClasses row classes topK).map List.length
      = .ok (min (topK.getD classes.length) classes.length) ∧
    (∀ row2 : List ℚ,
      row2.length < min (topK.getD classes.length) classes.length →
      getTopKClasses row2 classes topK = .error "topk: k exceeds dimension") := by
  constructor
  · simp only [getTopKClasses, topkRow, if_pos hk, Except.bind, Bind.bind,
      Except.map, List.length_map, List.length_take, sortIdxDesc_length]
    rw [Nat.min_eq_left hk]
  · intro row2 h2
    have hneg : ¬(min (topK.getD classes.length) classes.length ≤ row2.length) := by
      omega
    simp only [getTopKClasses, topkRow, if_neg hneg, Except.bind, Bind.bind]

/-- Witness for `getTopKClasses_amended` at a width-2 row with 2 labels. -/
theorem getTopKClasses_amended_witness :
    (getTopKClasses [3/10, 7/10] ["a", "b"] none).map List.length
      = .ok (min ((none : Option ℕ).getD 2) 2) ∧
    (∀ row2 : List ℚ,
      row2.length < min ((none : Option ℕ).getD ["a", "b"].length) ["a", "b"].length →
      getTopKClasses row2 ["a", "b"] none = .error "topk: k exceeds dimension") :=
  getTopKClasses_amended [3/10, 7/10] ["a", "b"] none (by decide)

/-! ## C1 — image batch length and alignment -/

/-- On a chunk with at least one successful download and an engine honouring
its row contract, `processChunk` succeeds with the `chunkEntries` value. -/
theorem processChunk_eq_chunkEntries (env : BatchEnv α) (classes : List String)
    (topK : Option ℕ) (c : List α)
    (hne : ((c.map fun u => (u, env.dl u)).filter fun p => p.2.isNone) ≠ [])
    (hlen : ∀ bufs, (env.infer bufs).length = bufs.length)
    (hwid : ∀ bufs, ∀ r ∈ env.infer bufs, r.length = classes.length) :
    processChunk env classes topK c = .ok (chunkEntries env classes topK c) := by
  have hstack :
      (((c.map fun u => (u, env.dl u)).filter fun p => p.2.isNone).map
        Prod.fst).isEmpty = false := by
    rcases h : ((c.map fun u => (u, env.dl u)).filter fun p => p.2.isNone) with _ | ⟨p, rest⟩
    · exact absurd h hne
    · rw [h]
      rfl
  have hall :
      ((env.infer (((c.map fun u => (u, env.dl u)).filter fun p =>
        p.2.isNone).map Prod.fst)).all fun r =>
          min (topK.getD classes.length) classes.length ≤ r.length) = true := by
    rw [List.all_eq_true]
    intro r hr
    simp only [decide_eq_true_eq]
    rw [hwid _ r hr]
    exact Nat.min_le_right _ _
  have htop :
      ((env.infer (((c.map fun u => (u, env.dl u)).filter fun p =>
        p.2.isNone).map Prod.fst)).map fun r =>
          ((sortIdxDesc r).take (min (topK.getD classes.length) classes.length)).map
            fun i => (r.getD i 0, i)).length
        = (((c.map fun u => (u, env.dl u)).filter fun p => p.2.isNone)).length := by
    rw [List.length_map, hlen, List.length_map]
  simp only [processChunk, chunkEntries, stackTensors, topkRows, hstack,
    Bool.false_eq_true, if_neg, if_false, hall, if_true, Except.bind, Bind.bind,
    htop, le_refl, if_pos, Except.pure, Pure.pure]

/-- The inputs echoed by a chunk result: the failed inputs (in input order)
followed by the successful inputs (in input order). -/
theorem chunkEntries_inputs (env : BatchEnv α) (classes : List String)
    (topK : Option ℕ) (c : List α)
    (hlen : ∀ bufs, (env.infer bufs).length = bufs.length) :
    (chunkEntries env classes topK c).map BEntry.input
      = (c.filter fun u => (env.dl u).isSome) ++
        (c.filter fun u => (env.dl u).isNone) := by
  have hfst : ∀ (p : α → Option String → Bool),
      ((c.map fun u => (u, env.dl u)).filter fun q => p q.1 q.2).map
        (fun q : α × Option String => q.1) = c.filter fun u => p u (env.dl u) := by
    intro p
    induction c with
    | nil => rfl
    | cons x xs ih =>
        simp only [List.map_cons, List.filter_cons]
        by_cases hx : p x (env.dl x)
        · simp only [hx, if_true, List.map_cons, ih]
        · simp only [hx, Bool.false_eq_true, if_false, ih]
  have hzip :
      (((c.map fun u => (u, env.dl u)).filter fun p => p.2.isNone)).length ≤
        ((env.infer (((c.map fun u => (u, env.dl u)).filter fun p =>
          p.2.isNone).map Prod.fst)).map fun r =>
            ((sortIdxDesc r).take (min (topK.getD classes.length)
              classes.length)).map fun i => (r.getD i 0, i)).length := by
    rw [List.length_map, hlen, List.length_map]
  simp only [chunkEntries, List.map_append]
  have h1 :
      (((c.map fun u => (u, env.dl u)).filter fun p => p.2.isSome).map
        fun p => BEntry.errorE p.1 (p.2.getD "")).map BEntry.input
      = c.filter fun u => (env.dl u).isSome := by
    rw [List.map_map]
    exact hfst fun u o => o.isSome
  have h2 :
      ((((c.map fun u => (u, env.dl u)).filter fun p => p.2.isNone).zip
        ((env.infer (((c.map fun u => (u, env.dl u)).filter fun p =>
          p.2.isNone).map Prod.fst)).map fun r =>
            ((sortIdxDesc r).take (min (topK.getD classes.length)
              classes.length)).map fun i => (r.getD i 0, i))).map
        fun p => BEntry.okE p.1.1
          (p.2.mapIdx fun j q => ⟨classes.get? q.2, q.1, j + 1⟩)).map BEntry.input
      = c.filter fun u => (env.dl u).isNone := by
    rw [List.map_map]
    have : (BEntry.input ∘ fun p : (α × Option String) × List (ℚ × ℕ) =>
        BEntry.okE p.1.1 (p.2.mapIdx fun j q => ⟨classes.get? q.2, q.1, j + 1⟩))
        = (fun q : α × Option String => q.1) ∘ Prod.fst := by
      funext p
      rfl
    rw [this, ← List.map_map, List.map_fst_zip _ _ hzip]
    exact hfst fun u o => o.isNone
  rw [h1, h2]

/-- The chunk slices reassemble to the original list. -/
theorem chunksOf_flatten : ∀ (b : ℕ) (l : List α), (chunksOf b l).flatten = l := by
  intro b l
  induction b, l using chunksOf.induct with
  | case1 x => simp [chunksOf]
  | case2 l h =>
      rcases l with _ | ⟨x, xs⟩
      · exact absurd rfl h
      · simp [chunksOf]
  | case3 b x xs ih =>
      rw [show chunksOf (b + 1) (x :: xs)
          = (x :: xs).take (b + 1) :: chunksOf (b + 1) ((x :: xs).drop (b + 1)) from by
        simp [chunksOf]]
      rw [List.flatten_cons, ih, List.take_append_drop]

theorem batchChunks_flatten (batchSize : Option ℕ) (l : List α) :
    (batchChunks batchSize l).flatten = l := by
  match batchSize with
  | none => simp [batchChunks]
  | some b =>
      rw [batchChunks]
      split
      · exact chunksOf_flatten b l
      · simp

/-- Folding `processChunk` over chunks that each succeed collects the
concatenation of the per-chunk entries. -/
theorem foldChunks_ok (env : BatchEnv α) (classes : List String) (topK : Option ℕ) :
    ∀ (chunks : List (List α)) (acc : List (BEntry α)),
    (∀ c ∈ chunks, processChunk env classes topK c = .ok (chunkEntries env classes topK c)) →
    (chunks.foldlM
        (fun acc c => (processChunk env classes topK c).map fun r => acc ++ r) acc)
      = .ok (acc ++ (chunks.map (chunkEntries env classes topK)).flatten) := by
  intro chunks
  induction chunks with
  | nil =>
      intro acc _
      simp only [List.foldlM, List.map_nil, List.flatten_nil, List.append_nil]
      rfl
  | cons c cs ih =>
      intro acc hok
      rw [List.foldlM_cons, hok c (List.mem_cons_self c cs)]
      have hrest : ∀ c2 ∈ cs, processChunk env classes topK c2
          = .ok (chunkEntries env classes topK c2) :=
        fun c2 h2 => hok c2 (List.mem_cons_of_mem c h2)
      show (cs.foldlM
          (fun acc c => (processChunk env classes topK c).map fun r => acc ++ r)
          (acc ++ chunkEntries env classes topK c))
        = .ok (acc ++ ((c :: cs).map (chunkEntries env classes topK)).flatten)
      rw [ih _ hrest, List.map_cons, List.flatten_cons, List.append_assoc]

/-- C1 (amended): whenever every chunk contains at least one successful
acquisition (an all-failure chunk dies in `tf.stack` and aborts the call) and
the engine honours its one-row-per-tensor contract, the batch call succeeds,
`count` and the result length both equal the input count, every input is
echoed by exactly one entry (the results are a permutation of per-input
entries, failures listed before the successes of their chunk), and the
results are index-aligned to the inputs whenever no acquisition fails. -/
theorem classifyBatch_amended (env : BatchEnv α) (classes : List String)
    (topK batchSize : Option ℕ) (imageUrls : List α)
    (hne : imageUrls ≠ [])
    (hlen : ∀ bufs, (env.infer bufs).length = bufs.length)
    (hwid : ∀ bufs, ∀ r ∈ env.infer bufs, r.length = classes.length)
    (hchunk : ∀ c ∈ batchChunks batchSize imageUrls,
      ((c.map fun u => (u, env.dl u)).filter fun p => p.2.isNone) ≠ []) :
    (classifyBatchRun env classes topK batchSize imageUrls).map
        (fun o => (o.count, o.results.length))
      = .ok (imageUrls.length, imageUrls.length) ∧
    (((classifyBatchRun env classes topK batchSize imageUrls).map
        (fun o => o.results.map BEntry.input)).toOption.getD []).Perm imageUrls ∧
    ((∀ u ∈ imageUrls, env.dl u = none) →
      (classifyBatchRun env classes topK batchSize imageUrls).map
        (fun o => o.results.map BEntry.input) = .ok imageUrls) := by
  have hrun : classifyBatchRun env classes topK batchSize imageUrls
      = .ok ⟨imageUrls.length,
          ((batchChunks batchSize imageUrls).map
            (chunkEntries env classes topK)).flatten⟩ := by
    have hemp : imageUrls.isEmpty = false := by
      rcases imageUrls with _ | _
      · exact absurd rfl hne
      · rfl
    have hfold := foldChunks_ok env classes topK (batchChunks batchSize imageUrls) []
      (fun c hc => processChunk_eq_chunkEntries env classes topK c (hchunk c hc) hlen hwid)
    rw [classifyBatchRun, hemp]
    simp only [Bool.false_eq_true, if_false, hfold, List.nil_append]
  have hinputs :
      (((batchChunks batchSize imageUrls).map
        (chunkEntries env classes topK)).flatten).map BEntry.input
      = ((batchChunks batchSize imageUrls).map fun c =>
          (c.filter fun u => (env.dl u).isSome) ++
          (c.filter fun u => (env.dl u).isNone)).flatten := by
    rw [List.map_flatten, List.map_map]
    congr 1
    refine List.map_congr_left ?_
    intro c _
    exact chunkEntries_inputs env classes topK c hlen
  have hperm :
      ((((batchChunks batchSize imageUrls).map fun c =>
          (c.filter fun u => (env.dl u).isSome) ++
          (c.filter fun u => (env.dl u).isNone)).flatten)).Perm imageUrls := by
    have hforall : List.Forall₂ List.Perm
        ((batchChunks batchSize imageUrls).map fun c =>
          (c.filter fun u => (env.dl u).isSome) ++
          (c.filter fun u => (env.dl u).isNone))
        (batchChunks batchSize imageUrls) := by
      rw [List.forall₂_map_left_iff]
      refine List.forall₂_same.mpr ?_
      intro c _
      have := List.filter_append_perm (fun u => (env.dl u).isSome) c
      refine List.Perm.trans ?_ this
      refine List.Perm.append (List.Perm.refl _) ?_
      refine List.Perm.of_eq ?_
      refine List.filter_congr ?_
      intro x _
      rcases env.dl x with _ | v <;> rfl
    have := List.Perm.join_congr hforall
    rw [batchChunks_flatten] at this
    exact this
  refine ⟨?_, ?_, ?_⟩
  · rw [hrun]
    simp only [Except.map]
    have : ((((batchChunks batchSize imageUrls).map
        (chunkEntries env classes topK)).flatten).map BEntry.input).length
        = imageUrls.length := by
      rw [hinputs]
      exact (hperm.length_eq)
    rw [List.length_map] at this
    rw [this]
  · rw [hrun]
    simp only [Except.map, Except.toOption, Option.getD]
    rw [hinputs]
    exact hperm
  · intro hall
    rw [hrun]
    simp only [Except.map]
    rw [hinputs]
    have hflat : ∀ (L : List (List α)), (∀ c ∈ L, ∀ u ∈ c, env.dl u = none) →
        ((L.map fun c =>
          (c.filter fun u => (env.dl u).isSome) ++
          (c.filter fun u => (env.dl u).isNone)).flatten) = L.flatten := by
      intro L
      induction L with
      | nil => exact fun _ => rfl
      | cons c cs ih =>
          intro hL
          simp only [List.map_cons, List.flatten_cons]
          rw [ih fun c2 h2 u hu => hL c2 (List.mem_cons_of_mem c h2) u hu]
          have hcall : ∀ u ∈ c, env.dl u = none :=
            fun u hu => hL c (List.mem_cons_self c cs) u hu
          have hfail : (c.filter fun u => (env.dl u).isSome) = [] := by
            rw [List.filter_eq_nil_iff]
            intro u hu
            rw [hcall u hu]
            exact fun h => by cases h
          have hok2 : (c.filter fun u => (env.dl u).isNone) = c := by
            rw [List.filter_eq_self]
            intro u hu
            rw [hcall u hu]
            rfl
          rw [hfail, hok2, List.nil_append]
    have hmem : ∀ c ∈ batchChunks batchSize imageUrls, ∀ u ∈ c, env.dl u = none := by
      intro c hc u hu
      refine hall u ?_
      rw [← batchChunks_flatten batchSize imageUrls]
      exact List.mem_flatten.mpr ⟨c, hc, hu⟩
    rw [hflat _ hmem, batchChunks_flatten]

/-- C1 counterexample: a 2-item batch where input 1's download fails returns
its entries as `[error-entry for input 1, success entry for input 0]` —
length 2, but slot 0 echoes input 1, so the results are not index-aligned to
the inputs `[0, 1]`. -/
theorem classifyBatch_misaligned :
    (classifyBatchRun c1Env ["a"] none none [0, 1]).map
      (fun o => o.results.map BEntry.input) = .ok [1, 0] ∧
    ([1, 0] : List ℕ) ≠ [0, 1] :=
  ⟨by rfl, by decide⟩

/-- Witness for `classifyBatch_amended`: a 2-item batch with no failures. -/
theorem classifyBatch_amended_witness :
    (classifyBatchRun c1EnvOk ["a"] none none [0, 1]).map
        (fun o => (o.count, o.results.length)) = .ok (2, 2) ∧
    (((classifyBatchRun c1EnvOk ["a"] none none [0, 1]).map
        (fun o => o.results.map BEntry.input)).toOption.getD []).Perm [0, 1] ∧
    ((∀ u ∈ [0, 1], c1EnvOk.dl u = none) →
      (classifyBatchRun c1EnvOk ["a"] none none [0, 1]).map
        (fun o => o.results.map BEntry.input) = .ok [0, 1]) := by
  have h := classifyBatch_amended c1EnvOk ["a"] none none [0, 1]
    (by decide)
    (fun bufs => by simp [c1EnvOk])
    (fun bufs r hr => by
      have h2 : ¬bufs = [] ∧ r = [1] := by simpa [c1EnvOk] using hr
      rw [h2.2]
      rfl)
    (fun c hc => by
      have : c = [0, 1] := by simpa [batchChunks] using hc
      subst this
      simp [c1EnvOk])
  simpa using h

/-! ## C2 — cleanup invocation count -/

/-- C2 (amended): for a disk-mode single-video call whose acquisition
succeeds, the acquired cleanup action is invoked on every exit path — but
exactly once only on the failure paths; the success path invokes it twice
(the pre-return call at line 462 plus the `finally` call at line 466, a
benign double-release since cleanup is idempotent).  `tempCleaned` becomes
`true` only after an invocation completes without throwing: when the cleanup
action itself throws, `tempCleaned` stays `false` and the call fails. -/
theorem classifyVideo_cleanup_amended (env : VideoEnv) (cfg : VideoCfg)
    (hmode : cfg.ioMode = .disk) (hacq : env.localPath = .ok ())
    (hfin : cfg.frames.isFinite = true) (hpos : cfg.frames.gtZero = true) :
    (env.cleanupFails = false →
      (exceptIsOk (classifyVideoRun env cfg).result = true →
        (classifyVideoRun env cfg).cleanupCalls = 2) ∧
      (exceptIsOk (classifyVideoRun env cfg).result = false →
        (classifyVideoRun env cfg).cleanupCalls = 1) ∧
      (classifyVideoRun env cfg).tempCleaned = true) ∧
    (env.cleanupFails = true →
      (classifyVideoRun env cfg).tempCleaned = false ∧
      exceptIsOk (classifyVideoRun env cfg).result = false) := by
  have hrun : classifyVideoRun env cfg =
      ⟨(videoBody env cfg).result,
        (videoBody env cfg).cleanupCalls
          + (if (videoBody env cfg).acquired then 1 else 0),
        (videoBody env cfg).fallbackCleanupCalls,
        (videoBody env cfg).tempCleaned
          || !((videoBody env cfg).acquired && env.cleanupFails),
        (videoBody env cfg).probed, (videoBody env cfg).extracted⟩ := by
    rw [classifyVideoRun, if_neg]
    simp [hfin, hpos]
  have hb : videoBody env cfg
      = afterAcquire env cfg .disk true (env.statSize.getD 0) env.probeDisk := by
    rw [videoBody, hmode, hacq]
  rw [hrun, hb]
  rcases hp : env.probeDisk with _ | d
  · rw [afterAcquire]
    rcases hcf : env.cleanupFails <;> simp [exceptIsOk]
  · rw [afterAcquire]
    by_cases hd : d ≤ 0
    · rw [if_pos hd]
      rcases hcf : env.cleanupFails <;> simp [exceptIsOk]
    · rw [if_neg hd]
      have hnotram : ¬(IoMode.disk = IoMode.ram ∧
          List.isEmpty (if IoMode.disk = IoMode.ram then env.framesRam
            else env.framesDisk) = true) := by
        simp
      rw [if_neg hnotram]
      rw [scoreAndAssemble]
      by_cases ht : cfg.turbo = true ∧
          List.isEmpty (if IoMode.disk = IoMode.ram then env.framesRam
            else env.framesDisk) = true
      · rw [if_pos ht]
        rcases hcf : env.cleanupFails <;> simp [exceptIsOk]
      · rw [if_neg ht]
        rcases hcf : env.cleanupFails
        · rw [if_neg (by simp [hcf])]
          simp [exceptIsOk]
        · rw [if_pos (by simp [hcf])]
          simp [exceptIsOk]

/-- Witness for `classifyVideo_cleanup_amended` at the concrete disk-mode
oracle. -/
theorem classifyVideo_cleanup_amended_witness :
    (vEnvC2.cleanupFails = false →
      (exceptIsOk (classifyVideoRun vEnvC2 vCfgC2).result = true →
        (classifyVideoRun vEnvC2 vCfgC2).cleanupCalls = 2) ∧
      (exceptIsOk (classifyVideoRun vEnvC2 vCfgC2).result = false →
        (classifyVideoRun vEnvC2 vCfgC2).cleanupCalls = 1) ∧
      (classifyVideoRun vEnvC2 vCfgC2).tempCleaned = true) ∧
    (vEnvC2.cleanupFails = true →
      (classifyVideoRun vEnvC2 vCfgC2).tempCleaned = false ∧
      exceptIsOk (classifyVideoRun vEnvC2 vCfgC2).result = false) :=
  classifyVideo_cleanup_amended vEnvC2 vCfgC2 (by rfl) (by rfl) (by rfl)
    (by simp only [vCfgC2, JSNum.gtZero, decide_eq_true_eq]; norm_num)

/-- C2 counterexample: on the concrete successful disk-mode call the acquired
cleanup is invoked twice, not exactly once. -/
theorem classifyVideo_cleanup_twice :
    (classifyVideoRun vEnvC2 vCfgC2).cleanupCalls = 2 ∧
    exceptIsOk (classifyVideoRun vEnvC2 vCfgC2).result = true ∧
    (2 : ℕ) ≠ 1 := by
  have hg : JSNum.gtZero (.fin 3) = true := by
    simp only [JSNum.gtZero, decide_eq_true_eq]
    norm_num
  have hd : ¬((10 : ℚ) ≤ 0) := by norm_num
  refine ⟨?_, ?_, by decide⟩ <;>
    simp [classifyVideoRun, videoBody, afterAcquire, scoreAndAssemble,
      vEnvC2, vCfgC2, hg, hd, exceptIsOk, JSNum.isFinite]

/-! ## C3 — size ceiling enforcement -/

/-- C3: the claim holds in ram mode — the 100-byte media against a 5-byte
ceiling fails with the size-exceeded error before any probe or extraction —
but in disk mode the identical oversized media sails through: the
`Media exceeds maxBytes` throw at line 323 sits inside `try { ... } catch {}`
and is swallowed, so the disk-mode call probes, extracts and succeeds. -/
theorem classifyVideo_disk_size_check_swallowed :
    exceptIsOk (classifyVideoRun vEnvC3 vCfgC3disk).result = true ∧
    (classifyVideoRun vEnvC3 vCfgC3disk).probed = true ∧
    (classifyVideoRun vEnvC3 vCfgC3ram).result = .error "Media exceeds maxBytes" ∧
    (classifyVideoRun vEnvC3 vCfgC3ram).probed = false ∧
    (classifyVideoRun vEnvC3 vCfgC3ram).extracted = false := by
  have hg : JSNum.gtZero (.fin 3) = true := by
    simp only [JSNum.gtZero, decide_eq_true_eq]
    norm_num
  have hd : ¬((10 : ℚ) ≤ 0) := by norm_num
  refine ⟨?_, ?_, ?_, ?_, ?_⟩ <;>
    simp [classifyVideoRun, videoBody, afterAcquire, scoreAndAssemble,
      vEnvC3, vCfgC3disk, vCfgC3ram, hg, hd, exceptIsOk, JSNum.isFinite]

/-! ## C4 — ram-to-disk fallback diagnostics -/

/-- C4: a ram-mode video request whose in-memory extraction yields zero
frames re-resolves the media to a file path and retries on disk; when the
disk attempt yields at least one frame the call succeeds with
`io.fallbackToDisk = true` and `io.mode = 'disk'`. -/
theorem classifyVideo_ram_fallback (env : VideoEnv) (cfg : VideoCfg) (n : ℕ) (d : ℚ)
    (hmode : cfg.ioMode = .ram)
    (hfin : cfg.frames.isFinite = true) (hpos : cfg.frames.gtZero = true)
    (hbuf : env.mediaBuf = .ok n)
    (hsize : ¬(cfg.maxBytes ≠ 0 ∧ n > cfg.maxBytes))
    (hprobe : env.probeRam = some d) (hd : ¬(d ≤ 0))
    (hempty : env.framesRam = []) (hfb : env.fallbackLocal = .ok ())
    (hne : env.framesFallback.isEmpty = false) :
    (classifyVideoRun env cfg).result.map (fun o => (o.io.fallbackToDisk, o.io.mode))
      = .ok (true, .disk) := by
  have hrun : classifyVideoRun env cfg
      = ⟨(videoBody env cfg).result,
          (videoBody env cfg).cleanupCalls
            + (if (videoBody env cfg).acquired then 1 else 0),
          (videoBody env cfg).fallbackCleanupCalls,
          (videoBody env cfg).tempCleaned
            || !((videoBody env cfg).acquired && env.cleanupFails),
          (videoBody env cfg).probed, (videoBody env cfg).extracted⟩ := by
    rw [classifyVideoRun, if_neg]
    simp [hfin, hpos]
  have hb : videoBody env cfg = afterAcquire env cfg .ram false n env.probeRam := by
    simp only [videoBody, hmode, hbuf]
    rw [if_neg hsize]
  rw [hrun, hb, hprobe, afterAcquire, if_neg hd]
  have hram : (IoMode.ram = IoMode.ram ∧
      List.isEmpty (if IoMode.ram = IoMode.ram then env.framesRam
        else env.framesDisk) = true) := by
    simp [hempty]
  rw [if_pos hram, hfb]
  rw [scoreAndAssemble, if_neg (by simp [hne])]
  simp [Except.map]

/-- Witness for `classifyVideo_ram_fallback` at the concrete ram-mode
oracle whose fallback yields one frame. -/
theorem classifyVideo_ram_fallback_witness :
    (classifyVideoRun vEnvC4 vCfgC4).result.map
        (fun o => (o.io.fallbackToDisk, o.io.mode)) = .ok (true, .disk) :=
  classifyVideo_ram_fallback vEnvC4 vCfgC4 4 10 (by rfl) (by rfl)
    (by simp only [vCfgC4, JSNum.gtZero, decide_eq_true_eq]; norm_num)
    (by rfl) (by decide) (by rfl) (by norm_num) (by rfl) (by rfl) (by rfl)

/-! ## C7 — zero-frame aggregate -/

theorem getD_replicate_zero (n i : ℕ) : (List.replicate n (0 : ℚ)).getD i 0 = 0 := by
  rw [List.getD_eq_getElem?_getD, List.getElem?_replicate]
  split <;> rfl

/-- With zero scored frames the aggregate ranking is not empty: it ranks
`min(topK ?? classCount, classCount)` classes, every one with average score
zero. -/
theorem aggregateRank_zeroes (classes : List String) (topK : Option ℕ) :
    (aggregateRank classes topK (List.replicate classes.length 0) 0).length
      = min (topK.getD classes.length) classes.length ∧
    ∀ p ∈ aggregateRank classes topK (List.replicate classes.length 0) 0,
      p.score = 0 := by
  have havg : (List.replicate classes.length (0 : ℚ)).map
      (fun s => s / ((max 1 (0 : ℕ) : ℕ) : ℚ))
      = List.replicate classes.length (0 : ℚ) := by
    rw [List.map_replicate, zero_div]
  constructor
  · rw [aggregateRank]
    simp only [havg, List.length_take, List.length_mapIdx, sortIdxDesc_length,
      List.length_replicate]
    exact Nat.min_eq_left (Nat.min_le_right _ _)
  · intro p hp
    rw [aggregateRank] at hp
    simp only [havg] at hp
    have hp2 := List.take_subset _ _ hp
    rw [List.mapIdx_eq_enum_map] at hp2
    rcases List.mem_map.mp hp2 with ⟨⟨j, ci⟩, _, he⟩
    rw [← he]
    simp only [Function.uncurry]
    exact getD_replicate_zero _ _

/-- C7 (amended): a zero-frame video run (`frameCount == 0`) in the default
sequential mode succeeds, but its aggregate prediction list is not empty: it
is a zero-score ranking of `min(topK ?? classCount, classCount)` classes.  In
turbo mode the same zero-frame run fails inside `tf.stack`. -/
theorem classifyVideo_zero_frames_amended (env : VideoEnv) (cfg : VideoCfg) (d : ℚ)
    (hmode : cfg.ioMode = .disk) (hacq : env.localPath = .ok ())
    (hfin : cfg.frames.isFinite = true) (hpos : cfg.frames.gtZero = true)
    (hprobe : env.probeDisk = some d) (hd : ¬(d ≤ 0))
    (hempty : env.framesDisk = []) (hcf : env.cleanupFails = false) :
    (cfg.turbo = false →
      (classifyVideoRun env cfg).result.map
          (fun o => (o.results, o.aggregate.length,
            o.aggregate.all fun p => decide (p.score = 0)))
        = .ok ([], min (cfg.topK.getD cfg.classes.length) cfg.classes.length,
            true)) ∧
    (cfg.turbo = true →
      (classifyVideoRun env cfg).result
        = .error "Pass at least one tensor to tf.stack") := by
  have hrun : classifyVideoRun env cfg
      = ⟨(videoBody env cfg).result,
          (videoBody env cfg).cleanupCalls
            + (if (videoBody env cfg).acquired then 1 else 0),
          (videoBody env cfg).fallbackCleanupCalls,
          (videoBody env cfg).tempCleaned
            || !((videoBody env cfg).acquired && env.cleanupFails),
          (videoBody env cfg).probed, (videoBody env cfg).extracted⟩ := by
    rw [classifyVideoRun, if_neg]
    simp [hfin, hpos]
  have hb : videoBody env cfg
      = afterAcquire env cfg .disk true (env.statSize.getD 0) env.probeDisk := by
    rw [videoBody, hmode, hacq]
  have hsa : videoBody env cfg
      = scoreAndAssemble env cfg .disk false true (env.statSize.getD 0)
          (safeTimestamps d
            (sampleTimestamps d (match cfg.frames with | .fin q => ⌊q⌋ | _ => 0))
            (1/20)) [] 0 := by
    rw [hb, hprobe, afterAcquire, if_neg hd]
    rw [if_neg (by simp [hempty])]
    rw [if_neg (by simp)]
    simp [hempty]
  constructor
  · intro ht
    rw [hrun, hsa, scoreAndAssemble, if_neg (by simp [ht])]
    rw [if_neg (by simp [hcf])]
    simp only [scoreFrames, List.enum_nil, List.foldl_nil, Except.map]
    rcases aggregateRank_zeroes cfg.classes cfg.topK with ⟨hlen2, hall2⟩
    have hallb : (aggregateRank cfg.classes cfg.topK
        (List.replicate cfg.classes.length 0) 0).all
          (fun p => decide (p.score = 0)) = true := by
      rw [List.all_eq_true]
      intro p hp
      simp only [decide_eq_true_eq]
      exact hall2 p hp
    rw [hlen2, hallb]
  · intro ht
    rw [hrun, hsa, scoreAndAssemble, if_pos (by simp [ht])]

/-- Witness for `classifyVideo_zero_frames_amended` at the concrete
zero-frame disk-mode oracle. -/
theorem classifyVideo_zero_frames_amended_witness :
    (vCfgC7.turbo = false →
      (classifyVideoRun vEnvC7 vCfgC7).result.map
          (fun o => (o.results, o.aggregate.length,
            o.aggregate.all fun p => decide (p.score = 0)))
        = .ok ([], min (vCfgC7.topK.getD vCfgC7.classes.length)
            vCfgC7.classes.length, true)) ∧
    (vCfgC7.turbo = true →
      (classifyVideoRun vEnvC7 vCfgC7).result
        = .error "Pass at least one tensor to tf.stack") :=
  classifyVideo_zero_frames_amended vEnvC7 vCfgC7 10 (by rfl) (by rfl) (by rfl)
    (by simp only [vCfgC7, JSNum.gtZero, decide_eq_true_eq]; norm_num)
    (by rfl) (by norm_num) (by rfl) (by rfl)

/-- C7 counterexample: the concrete zero-frame sequential run succeeds with
`results = []` but its aggregate is the two-entry zero-score ranking
`[a, b]`, not the empty prediction list the claim requires. -/
theorem classifyVideo_zero_frames_aggregate_nonempty :
    (classifyVideoRun vEnvC7 vCfgC7).result.map
        (fun o => (o.results.length, o.aggregate.length))
      = .ok (0, 2) ∧ (2 : ℕ) ≠ 0 := by
  have hg : JSNum.gtZero (.fin 3) = true := by
    simp only [JSNum.gtZero, decide_eq_true_eq]
    norm_num
  have hd : ¬((10 : ℚ) ≤ 0) := by norm_num
  have hlen2 : (aggregateRank ["a", "b"] none [0, 0] 0).length = 2 := by
    have h0 := (aggregateRank_zeroes ["a", "b"] none).1
    simpa [List.replicate] using h0
  refine ⟨?_, by decide⟩
  simp [classifyVideoRun, videoBody, afterAcquire, scoreAndAssemble, scoreFrames,
    vEnvC7, vCfgC7, hg, hd, JSNum.isFinite, Except.map, hlen2]

end TMJS
